import Mathlib

set_option maxRecDepth 100000

/-!
Shallow embedding of `src/index.js` (PerplexityBot): the record parser
`parseStockData`, the dataset writer `saveToCSV` (via the csv-writer library
in append mode), and the orchestrator `runQuery`.

JavaScript regular expressions used by the source are linear: every
repetition operator is applied to a single character class, so we embed them
as lists of items (character-class repetitions, word-boundary assertions and
lookaheads) and run a standard leftmost, greedy, backtracking matcher that
mirrors the ECMAScript semantics for these constructs.
-/

/-- ASCII uppercase letter, the class `[A-Z]` without the `i` flag. -/
def isUpperAZ (c : Char) : Bool := 'A' ≤ c && c ≤ 'Z'

/-- ASCII letter: the class `[A-Z]` under the `i` flag (case canonicalization). -/
def isLetterCI (c : Char) : Bool := ('A' ≤ c && c ≤ 'Z') || ('a' ≤ c && c ≤ 'z')

/-- The class `[0-9.]`. -/
def isDigitDot (c : Char) : Bool := ('0' ≤ c && c ≤ '9') || c = '.'

/-- ASCII digit, `\d`. -/
def isDigit09 (c : Char) : Bool := '0' ≤ c && c ≤ '9'

/-- ECMAScript `\s` (WhiteSpace and LineTerminator); we cover the code points
that can actually occur in this pipeline plus NBSP and BOM. -/
def isJsSpace (c : Char) : Bool :=
  c = ' ' || c = '\t' || c = '\n' || c = '\r' ||
  c = '\x0b' || c = '\x0c' || c = ' ' || c = '﻿'

/-- ECMAScript word character `\w` = `[A-Za-z0-9_]`, used by `\b`. -/
def isWordChar (c : Char) : Bool :=
  isLetterCI c || isDigit09 c || c = '_'

/-- ECMAScript `.` without the `s` flag: any character except a line terminator. -/
def isDotChar (c : Char) : Bool :=
  !(c = '\n' || c = '\r' || c = ' ' || c = ' ')

/-- Case-insensitive match of a single literal character (the `i` flag). -/
def charCI (pat c : Char) : Bool := pat.toLower = c.toLower

/-- One lookahead-free element of a linear regular expression: a repeated
character class (with capture flag) or a word boundary `\b`. -/
inductive LItem where
  | cls (f : Char → Bool) (lo : Nat) (hi : Option Nat) (cap : Bool)
  | wb

/-- A literal character, case-sensitively. -/
def LItem.lit (c : Char) : LItem := LItem.cls (fun x => x = c) 1 (some 1) false

/-- A literal character under the `i` flag. -/
def LItem.litCI (c : Char) : LItem := LItem.cls (charCI c) 1 (some 1) false

/-- Items for a literal word, optionally case-insensitive. -/
def litWord (ci : Bool) (w : String) : List LItem :=
  w.toList.map (fun c => if ci then LItem.litCI c else LItem.lit c)

/-- A top-level element: a plain item or a zero-width lookahead `(?=...)`.
The source's lookaheads contain no further lookaheads, and their own capture
groups are never read by the source (it only uses `match[3]` of pattern 4). -/
inductive RItem where
  | base (b : LItem)
  | la (sub : List LItem)

/-- Length of the longest run of characters satisfying `f` at the head. -/
def runLen (f : Char → Bool) : List Char → Nat
  | [] => 0
  | c :: cs => if f c then runLen f cs + 1 else 0

/-- Greedy backtracking over a repetition count: try `cont k`, `cont (k-1)`, ...
down to `minR`, returning the first success (ECMAScript greedy quantifier). -/
def tryReps (minR : Nat) (cont : Nat → Option α) : Nat → Option α
  | 0 => if 0 < minR then none else cont 0
  | k + 1 =>
    if k + 1 < minR then none
    else
      match cont (k + 1) with
      | some a => some a
      | none => tryReps minR cont k

/-- `\b`: positions where exactly one neighbour is a word character. -/
def wordBoundary (prev next : Option Char) : Bool :=
  (prev.elim false isWordChar) != (next.elim false isWordChar)

/-- Backtracking matcher for a lookahead-free linear pattern anchored at the
current position. `prev` is the character just before the position (for
`\b`). Returns the captures of the `cap` items in order and the unconsumed
suffix. -/
def matchSeqL : List LItem → Option Char → List Char → Option (List String × List Char)
  | [], _, s => some ([], s)
  | LItem.cls f lo hi cap :: rest, prev, s =>
    let upper := match hi with
      | some m => Nat.min m (runLen f s)
      | none => runLen f s
    tryReps lo
      (fun k =>
        (matchSeqL rest (if k = 0 then prev else (s.take k).getLast?) (s.drop k)).map
          (fun pr => ((if cap then [String.mk (s.take k)] else []) ++ pr.1, pr.2)))
      upper
  | LItem.wb :: rest, prev, s =>
    if wordBoundary prev s.head? then matchSeqL rest prev s else none

/-- Backtracking matcher for a top-level pattern: as `matchSeqL`, with
lookaheads tried at the current position without consuming input (their
captures are dropped, since the source never reads them). -/
def matchSeq : List RItem → Option Char → List Char → Option (List String × List Char)
  | [], _, s => some ([], s)
  | RItem.base (LItem.cls f lo hi cap) :: rest, prev, s =>
    let upper := match hi with
      | some m => Nat.min m (runLen f s)
      | none => runLen f s
    tryReps lo
      (fun k =>
        (matchSeq rest (if k = 0 then prev else (s.take k).getLast?) (s.drop k)).map
          (fun pr => ((if cap then [String.mk (s.take k)] else []) ++ pr.1, pr.2)))
      upper
  | RItem.base LItem.wb :: rest, prev, s =>
    if wordBoundary prev s.head? then matchSeq rest prev s else none
  | RItem.la sub :: rest, prev, s =>
    match matchSeqL sub prev s with
    | some _ => matchSeq rest prev s
    | none => none

/-- Leftmost search: try `matchSeq` at each position in turn, threading the
previous character. Returns (start offset, captures, end offset). -/
def searchSeq (items : List RItem) : Option Char → List Char → Option (Nat × List String × Nat)
  | prev, [] =>
    match matchSeq items prev [] with
    | some (caps, _) => some (0, caps, 0)
    | none => none
  | prev, c :: s =>
    match matchSeq items prev (c :: s) with
    | some (caps, rest) => some (0, caps, (c :: s).length - rest.length)
    | none =>
      (searchSeq items (some c) s).map (fun r => (r.1 + 1, r.2.1, r.2.2 + 1))

/-- Leftmost search for a lookahead-free pattern. -/
def searchSeqL (items : List LItem) : Option Char → List Char → Option (Nat × List String × Nat)
  | prev, [] =>
    match matchSeqL items prev [] with
    | some (caps, _) => some (0, caps, 0)
    | none => none
  | prev, c :: s =>
    match matchSeqL items prev (c :: s) with
    | some (caps, rest) => some (0, caps, (c :: s).length - rest.length)
    | none =>
      (searchSeqL items (some c) s).map (fun r => (r.1 + 1, r.2.1, r.2.2 + 1))

/-! ## JavaScript string helpers used by `parseStockData` -/

/-- `String.prototype.trim()`. -/
def jsTrim (s : String) : String :=
  String.mk (((s.toList.dropWhile isJsSpace).reverse.dropWhile isJsSpace).reverse)

/-- `ticker.replace(/[^A-Z]/g, '')` (line 121): keep only uppercase letters. -/
def filterUpper (s : String) : String :=
  String.mk (s.toList.filter isUpperAZ)

/-- `company.replace(/^\d+\.\s*/, '')` (line 122): strip one leading
enumeration marker `<digits>.` plus following whitespace, if present. -/
def stripEnum (s : String) : String :=
  let cs := s.toList
  let ds := cs.takeWhile isDigit09
  if ds.isEmpty then s
  else
    match cs.drop ds.length with
    | '.' :: rest => String.mk (rest.dropWhile isJsSpace)
    | _ => s

/-- `s.substring(0, 50)` on the characters of `s`. -/
def strTake (n : Nat) (s : String) : String :=
  String.mk (s.toList.take n)

/-- Digit string to `Nat`. -/
def digitsToNat (ds : List Char) : Nat :=
  ds.foldl (fun n c => n * 10 + (c.toNat - '0'.toNat)) 0

/-- `parseFloat` on the strings that reach it in this program: captures of
`[0-9.]+` (digits and dots only, so no sign, exponent or whitespace handling
is reachable). Parses the longest prefix `digits [ '.' digits ]` containing
at least one digit; `none` models `NaN`. We use exact rationals in place of
binary64, which agrees with the program's only use (comparison with `2.0`)
on all values it can produce away from a half-ulp of `2.0`. -/
def jsParseFloatQ (s : String) : Option ℚ :=
  let cs := s.toList
  let ip := cs.takeWhile isDigit09
  match cs.drop ip.length with
  | '.' :: rest =>
    let fp := rest.takeWhile isDigit09
    if ip.isEmpty && fp.isEmpty then none
    else some (mkRat (digitsToNat ip * 10 ^ fp.length + digitsToNat fp) (10 ^ fp.length))
  | _ => if ip.isEmpty then none else some (mkRat (digitsToNat ip) 1)

/-- `parseFloat(m) <= 2.0` (false on `NaN`). -/
def parseFloatLe2 (s : String) : Bool :=
  match jsParseFloatQ s with
  | some q => decide (q ≤ 2)
  | none => false

/-! ## The four strategy patterns (src/index.js lines 92-97), `gi` flags -/

/-- `/([A-Z]{1,5})\s*\(([^)]+)\)[^$]*\$([0-9.]+)\s*billion/gi` -/
def pat1 : List LItem :=
  [LItem.cls isLetterCI 1 (some 5) true,
   LItem.cls isJsSpace 0 none false,
   LItem.lit '(',
   LItem.cls (fun c => c ≠ ')') 1 none true,
   LItem.lit ')',
   LItem.cls (fun c => c ≠ '$') 0 none false,
   LItem.lit '$',
   LItem.cls isDigitDot 1 none true,
   LItem.cls isJsSpace 0 none false] ++ litWord true "billion"

/-- `/([^(]+)\s*\(([A-Z]{1,5})\)[^$]*\$([0-9.]+)\s*billion/gi` -/
def pat2 : List LItem :=
  [LItem.cls (fun c => c ≠ '(') 1 none true,
   LItem.cls isJsSpace 0 none false,
   LItem.lit '(',
   LItem.cls isLetterCI 1 (some 5) true,
   LItem.lit ')',
   LItem.cls (fun c => c ≠ '$') 0 none false,
   LItem.lit '$',
   LItem.cls isDigitDot 1 none true,
   LItem.cls isJsSpace 0 none false] ++ litWord true "billion"

/-- `/([A-Z]{1,5}):\s*([^-]+)\s*-[^$]*\$([0-9.]+)\s*billion/gi` -/
def pat3 : List LItem :=
  [LItem.cls isLetterCI 1 (some 5) true,
   LItem.lit ':',
   LItem.cls isJsSpace 0 none false,
   LItem.cls (fun c => c ≠ '-') 1 none true,
   LItem.cls isJsSpace 0 none false,
   LItem.lit '-',
   LItem.cls (fun c => c ≠ '$') 0 none false,
   LItem.lit '$',
   LItem.cls isDigitDot 1 none true,
   LItem.cls isJsSpace 0 none false] ++ litWord true "billion"

/-- `/(?=.*([A-Z]{2,5}))(?=.*\$([0-9.]+)\s*billion)(.+)/gi`.
The source reads only `match[3]` for this pattern (lines 104-113), never the
lookahead groups, so only the `(.+)` group is recorded as a capture here. -/
def pat4 : List RItem :=
  [RItem.la [LItem.cls isDotChar 0 none false, LItem.cls isLetterCI 2 (some 5) false],
   RItem.la ([LItem.cls isDotChar 0 none false,
              LItem.lit '$',
              LItem.cls isDigitDot 1 none false,
              LItem.cls isJsSpace 0 none false] ++ litWord true "billion"),
   RItem.base (LItem.cls isDotChar 1 none true)]

/-- A strategy: its compiled pattern and whether `pattern.source` contains
`'(?=.*'` (the test at line 104 selecting the free-form-line branch). -/
structure StratPattern where
  items : List RItem
  lineScan : Bool

/-- The `patterns` array (lines 92-97) in order. -/
def patterns : List StratPattern :=
  [⟨pat1.map RItem.base, false⟩, ⟨pat2.map RItem.base, false⟩,
   ⟨pat3.map RItem.base, false⟩, ⟨pat4, true⟩]

/-! ## Inner matches of the line-scan branch and the fallback -/

/-- `/\b([A-Z]{2,5})\b/` (case-sensitive; lines 106 and 143). -/
def tickerItems : List LItem :=
  [LItem.wb, LItem.cls isUpperAZ 2 (some 5) true, LItem.wb]

/-- `/\$([0-9.]+)\s*billion/` with or without the `i` flag
(line 107 without, line 144 with). -/
def capItems (ci : Bool) : List LItem :=
  [LItem.lit '$',
   LItem.cls isDigitDot 1 none true,
   LItem.cls isJsSpace 0 none false] ++ litWord ci "billion"

/-- `line.match(/\b([A-Z]{2,5})\b/)?.[1]`. -/
def findTicker25 (s : List Char) : Option String :=
  match searchSeqL tickerItems none s with
  | some (_, [t], _) => some t
  | _ => none

/-- `line.match(/\$([0-9.]+)\s*billion/ [i])?.[1]`. -/
def findCapNum (ci : Bool) (s : List Char) : Option String :=
  match searchSeqL (capItems ci) none s with
  | some (_, [m], _) => some m
  | _ => none

/-- `String.prototype.replace` with the `g` flag and an empty replacement:
remove successive non-overlapping leftmost matches. Both patterns used with
it match at least two characters, so `fuel = length + 1` never runs out and
the `e ≤ st` guard (an empty match) is unreachable. -/
def replAllAux (items : List LItem) : Nat → Option Char → List Char → List Char
  | 0, _, s => s
  | fuel + 1, prev, s =>
    match searchSeqL items prev s with
    | none => s
    | some (st, _, e) =>
      if e ≤ st then s
      else s.take st ++ replAllAux items fuel ((s.take e).getLast?) (s.drop e)

/-- `/\([^)]*\)/g` (line 112). -/
def parenItems : List LItem :=
  [LItem.lit '(', LItem.cls (fun c => c ≠ ')') 0 none false, LItem.lit ')']

/-- `/\$[0-9.]+\s*billion/g` (line 112, case-sensitive). -/
def capScrubItems : List LItem :=
  [LItem.lit '$',
   LItem.cls isDigitDot 1 none false,
   LItem.cls isJsSpace 0 none false] ++ litWord false "billion"

/-- `line.replace(/\([^)]*\)/g, '').replace(/\$[0-9.]+\s*billion/g, '').trim()`. -/
def scrubLine (line : String) : String :=
  let afterParens := replAllAux parenItems (line.toList.length + 1) none line.toList
  jsTrim (String.mk (replAllAux capScrubItems (afterParens.length + 1) none afterParens))

/-! ## The parse pipeline -/

/-- One extracted stock record (the object pushed at lines 125-130/151-156). -/
structure StockRecord where
  ticker : String
  company : String
  marketCap : String
  extractedAt : String
deriving DecidableEq, Repr

/-- Lines 102-118: derive the `(ticker, company, marketCap)` candidate from a
match's captures; `none` models the fields remaining `undefined`. -/
def deriveCandidate (lineScan : Bool) (caps : List String) : Option (String × String × String) :=
  if lineScan then
    match caps with
    | [line] =>
      match findTicker25 line.toList, findCapNum false line.toList with
      | some tk, some cap => some (tk, scrubLine line, cap)
      | _, _ => none
    | _ => none
  else
    match caps with
    | [m1, m2, m3] => some (jsTrim m1, jsTrim m2, jsTrim m3)
    | _ => none

/-- Lines 120-132: the acceptance check, normalization, dedup and push. -/
def acceptStep (now : String) (cand : Option (String × String × String))
    (stocks : List StockRecord) : List StockRecord :=
  match cand with
  | none => stocks
  | some (ticker0, company0, marketCap) =>
    if ticker0 ≠ "" ∧ company0 ≠ "" ∧ marketCap ≠ "" ∧ parseFloatLe2 marketCap then
      let ticker := filterUpper ticker0
      let company := jsTrim (stripEnum company0)
      if (stocks.find? (fun s => s.ticker == ticker)).isNone then
        stocks ++ [⟨ticker, strTake 50 company, "$" ++ marketCap ++ "B", now⟩]
      else stocks
    else stocks

/-- The `while ((match = pattern.exec(responseText)) !== null && stocks.length < 15)`
loop (lines 100-133) for one pattern. `lastIndex` is the regex's `lastIndex`;
`exec` searches from it and advances it to the match end. Every pattern
consumes at least one character per match, so `fuel = |text| + 1` never runs
out. -/
def execLoop (now : String) (p : StratPattern) (t : List Char) :
    Nat → Nat → List StockRecord → List StockRecord
  | 0, _, stocks => stocks
  | fuel + 1, lastIndex, stocks =>
    match searchSeq p.items ((t.take lastIndex).getLast?) (t.drop lastIndex) with
    | none => stocks
    | some (_, caps, e) =>
      if 15 ≤ stocks.length then stocks
      else
        execLoop now p t fuel (lastIndex + e)
          (acceptStep now (deriveCandidate p.lineScan caps) stocks)

/-- The `for (const pattern of patterns)` loop (line 99). -/
def strategyPass (now : String) (t : List Char) : List StockRecord :=
  patterns.foldl (fun stocks p => execLoop now p t (t.length + 1) 0 stocks) []

/-- `responseText.split('\n')` (line 138): split at every newline, keeping
empty segments; the empty string yields one empty line. -/
def splitNl : List Char → List (List Char)
  | [] => [[]]
  | c :: rest =>
    if c = '\n' then [] :: splitNl rest
    else
      match splitNl rest with
      | [] => [[c]]
      | l :: ls => (c :: l) :: ls

/-- The body of the fallback loop for one line (lines 143-158): when the line
has both a 2-5 letter uppercase token and a dollar-billions figure at most
2.0, and the ticker is new, push a synthesized record. -/
def fallbackStep (now : String) (line : List Char) (stocks : List StockRecord) :
    List StockRecord :=
  match findTicker25 line, findCapNum true line with
  | some tk, some cap =>
    if parseFloatLe2 cap then
      if (stocks.find? (fun s => s.ticker == tk)).isNone then
        stocks ++ [⟨tk, "Company for " ++ tk, "$" ++ cap ++ "B", now⟩]
      else stocks
    else stocks
  | _, _ => stocks

/-- The fallback line scan (lines 136-160). -/
def fallbackLoop (now : String) : List (List Char) → List StockRecord → List StockRecord
  | [], stocks => stocks
  | line :: rest, stocks =>
    if 10 ≤ stocks.length then stocks
    else fallbackLoop now rest (fallbackStep now line stocks)

/-- `parseStockData(responseText)` (lines 88-164). `now` is the value of
`new Date().toISOString()`, constant within one call. -/
def parseStockData (now : String) (responseText : String) : List StockRecord :=
  let stocks := strategyPass now responseText.toList
  if stocks.length < 5 then fallbackLoop now (splitNl responseText.toList) stocks
  else stocks

/-! ## Dataset writer: `saveToCSV` via the csv-writer library -/

/-- csv-writer's quoting: double every quote character. -/
def quoteDoubled (s : String) : String :=
  String.mk (s.toList.foldr (fun c acc => if c = '"' then '"' :: '"' :: acc else c :: acc) [])

/-- csv-writer's default field stringifier: quote a field iff it contains the
field delimiter `,`, the record delimiter `\n`, or a quote. -/
def stringifyField (s : String) : String :=
  if s.toList.any (fun c => c = ',' || c = '\n' || c = '"') then
    "\"" ++ quoteDoubled s ++ "\""
  else s

/-- One row in the fixed four-column layout configured at lines 170-176:
ticker, company, marketCap, extractedAt. -/
def csvLine (r : StockRecord) : String :=
  String.intercalate "," ([r.ticker, r.company, r.marketCap, r.extractedAt].map stringifyField)

/-- csv-writer `stringifyRecords`: rows joined by and terminated with the
record delimiter `\n`. -/
def stringifyRecords (records : List StockRecord) : String :=
  String.intercalate "\n" (records.map csvLine) ++ "\n"

/-- The header line csv-writer would produce for the configured columns.
Because `saveToCSV` constructs the writer with `append: true` (line 177),
the writer's header string is always empty and this line is never written. -/
def csvHeaderString : String :=
  "Ticker,Company Name,Market Cap,Extracted At" ++ "\n"

/-- `saveToCSV(stocks)` (lines 166-182). The store is the CSV file content
(`none` = file absent). Modelled from the csv-writer library: with
`append: true` the header string is empty and the file is opened with flag
`a`, which creates it when absent and appends otherwise. -/
def saveToCSV (store : Option String) (stocks : List StockRecord) : Option String :=
  some (store.getD "" ++ stringifyRecords stocks)

/-! ## Orchestrator: `runQuery` -/

/-- The mutable fields of the bot that `runQuery` touches: whether
`this.browser` is non-null, and the CSV store. (`this.page` always
accompanies `this.browser` in this program.) -/
structure BotState where
  browser : Bool
  store : Option String
deriving DecidableEq, Repr

/-- Outcomes of the effectful steps of one run, fixed up front: whether
`initBrowser` resolves or rejects, what `queryPerplexity` resolves to (or the
error it rejects with), and whether the csv write resolves or rejects. -/
structure RunEnv where
  now : String
  initResult : Except String Unit
  queryResult : Except String String
  saveResult : Except String Unit

/-- The value `runQuery` returns: `{success: true, stockCount, stocks}` or
`{success: false, error}`. -/
inductive RunOutcome where
  | ok (stockCount : Nat) (stocks : List StockRecord)
  | fail (error : String)
deriving DecidableEq, Repr

/-- The `try` block of `runQuery` (lines 185-207). A thrown error carries the
state at the throw site: `initBrowser` may have installed the browser before
a later step threw. `saveToCSV` is not transactional; a failed write is
modelled as writing nothing. -/
def runQueryTry (env : RunEnv) (st : BotState) :
    Except (String × BotState) (BotState × RunOutcome) :=
  match (if st.browser then Except.ok ⟨true, st.store⟩
         else
           match env.initResult with
           | Except.ok _ => Except.ok (⟨true, st.store⟩ : BotState)
           | Except.error e => Except.error (e, st)) with
  | Except.error es => Except.error es
  | Except.ok st1 =>
    match env.queryResult with
    | Except.error e => Except.error (e, st1)
    | Except.ok responseText =>
      if responseText = "" ∨ responseText.length < 100 then
        Except.error ("Response too short or empty", st1)
      else
        let stocks := parseStockData env.now responseText
        if 0 < stocks.length then
          match env.saveResult with
          | Except.ok _ =>
            Except.ok (⟨st1.browser, saveToCSV st1.store stocks⟩,
                       RunOutcome.ok stocks.length stocks)
          | Except.error e => Except.error (e, st1)
        else
          Except.ok (st1, RunOutcome.fail "No stocks extracted")

/-- `runQuery()` (lines 184-219). The catch block (lines 209-218) closes the
browser when live, clears the handle, and returns a failure result; the store
is untouched by the catch path. -/
def runQuery (env : RunEnv) (st : BotState) : BotState × RunOutcome :=
  match runQueryTry env st with
  | Except.ok r => r
  | Except.error (e, stE) => (⟨false, stE.store⟩, RunOutcome.fail e)

/-! ## Shape predicates and concrete scenarios used by the theorems -/

/-- The shape of every record the strategy loop pushes (lines 124-131). -/
def stratShaped (now : String) (r : StockRecord) : Prop :=
  ∃ t c m, r = ⟨filterUpper t, strTake 50 (jsTrim (stripEnum c)), "$" ++ m ++ "B", now⟩ ∧
    parseFloatLe2 m = true

/-- The shape of every record the fallback scan pushes (lines 150-157). -/
def fbShaped (now : String) (r : StockRecord) : Prop :=
  ∃ tk m, r = ⟨tk, "Company for " ++ tk, "$" ++ m ++ "B", now⟩ ∧
    parseFloatLe2 m = true ∧ tk.toList.all isUpperAZ = true ∧ tk.length ≤ 5

/-- A response text of 103 characters (passing the minimum-length check)
that parses to one record. -/
def c1Text : String :=
  "XYZ (Example Corp) is a promising small cap pick, discussed positively on finance sites at $1.5 billion"

/-- Orchestrator scenario: browser cached, successful query, failing write. -/
def c1Env : RunEnv := ⟨"t0", Except.ok (), Except.ok c1Text, Except.error "disk full"⟩

/-- Orchestrator scenario: cached browser, query rejects. -/
def c9Env : RunEnv := ⟨"t0", Except.ok (), Except.error "nav timeout", Except.ok ()⟩

/-- Orchestrator scenario for the follow-up run: `initBrowser` rejects. -/
def c9Env2 : RunEnv := ⟨"t0", Except.error "fresh init failed", Except.ok "x", Except.ok ()⟩

/-! ## Invariants of the parse pipeline -/


theorem acceptStep_spec (now : String) (cand : Option (String × String × String))
    (stocks : List StockRecord) :
    ∃ e, acceptStep now cand stocks = stocks ++ e ∧ e.length ≤ 1 ∧
      ∀ r ∈ e, stratShaped now r ∧ ∀ s ∈ stocks, ¬ s.ticker = r.ticker := by
  cases cand with
  | none => exact ⟨[], by simp [acceptStep]⟩
  | some tcm =>
    obtain ⟨t0, c0, m⟩ := tcm
    by_cases hg : t0 ≠ "" ∧ c0 ≠ "" ∧ m ≠ "" ∧ parseFloatLe2 m = true
    · by_cases hfind : (stocks.find? (fun s => s.ticker == filterUpper t0)).isNone = true
      · refine ⟨[⟨filterUpper t0, strTake 50 (jsTrim (stripEnum c0)), "$" ++ m ++ "B", now⟩],
          ?_, by simp, ?_⟩
        · simp [acceptStep, hg.1, hg.2.1, hg.2.2.1, hg.2.2.2, hfind]
        · intro r hr
          simp only [List.mem_singleton] at hr
          subst hr
          refine ⟨⟨t0, c0, m, rfl, hg.2.2.2⟩, ?_⟩
          intro s hs heq
          have hnone := List.find?_eq_none.mp (Option.isNone_iff_eq_none.mp hfind) s hs
          simp [heq] at hnone
      · exact ⟨[], by simp [acceptStep, hg.1, hg.2.1, hg.2.2.1, hg.2.2.2, hfind], by simp, by simp⟩
    · exact ⟨[], by simp [acceptStep, hg], by simp, by simp⟩

theorem execLoop_spec (now : String) (p : StratPattern) (t : List Char) :
    ∀ fuel lastIndex stocks, ∃ e,
      execLoop now p t fuel lastIndex stocks = stocks ++ e ∧ ∀ r ∈ e, stratShaped now r := by
  intro fuel
  induction fuel with
  | zero => intro li stocks; exact ⟨[], by simp [execLoop]⟩
  | succ n ih =>
    intro li stocks
    rw [execLoop]
    cases hs : searchSeq p.items ((t.take li).getLast?) (t.drop li) with
    | none => exact ⟨[], by simp⟩
    | some res =>
      obtain ⟨st, caps, e'⟩ := res
      by_cases h15 : 15 ≤ stocks.length
      · exact ⟨[], by simp [h15]⟩
      · simp only [if_neg h15]
        obtain ⟨e1, he1, hs1⟩ := acceptStep_spec now (deriveCandidate p.lineScan caps) stocks
        obtain ⟨e2, he2, hs2⟩ := ih (li + e') (acceptStep now (deriveCandidate p.lineScan caps) stocks)
        refine ⟨e1 ++ e2, ?_, ?_⟩
        · rw [he2, he1, List.append_assoc]
        · intro r hr
          rcases List.mem_append.mp hr with h | h
          · exact (hs1.2 r h).1
          · exact hs2 r h

theorem tryReps_some {α : Type} (minR : Nat) (cont : Nat → Option α) :
    ∀ k a, tryReps minR cont k = some a → ∃ j, minR ≤ j ∧ j ≤ k ∧ cont j = some a := by
  intro k
  induction k with
  | zero =>
    intro a h
    rw [tryReps] at h
    split at h
    · exact absurd h (by simp)
    · exact ⟨0, by omega, Nat.le_refl 0, h⟩
  | succ n ih =>
    intro a h
    rw [tryReps] at h
    split at h
    · exact absurd h (by simp)
    · rename_i hlt
      cases hc : cont (n + 1) with
      | some b =>
        rw [hc] at h
        exact ⟨n + 1, by omega, Nat.le_refl _, by rw [hc]; exact h⟩
      | none =>
        rw [hc] at h
        obtain ⟨j, h1, h2, h3⟩ := ih a h
        exact ⟨j, h1, by omega, h3⟩

theorem all_take_of_le_runLen (f : Char → Bool) :
    ∀ (s : List Char) (j : Nat), j ≤ runLen f s → (s.take j).all f = true := by
  intro s
  induction s with
  | nil =>
    intro j h
    rw [runLen] at h
    have : j = 0 := by omega
    subst this
    simp
  | cons c cs ih =>
    intro j h
    rw [runLen] at h
    by_cases hc : f c
    · rw [if_pos hc] at h
      cases j with
      | zero => simp
      | succ j' =>
        rw [List.take_succ_cons, List.all_cons, hc, Bool.true_and]
        exact ih j' (by omega)
    · rw [if_neg hc] at h
      have : j = 0 := by omega
      subst this
      simp

theorem matchSeqL_ticker (prev : Option Char) (s : List Char) (caps : List String)
    (rest' : List Char) (h : matchSeqL tickerItems prev s = some (caps, rest')) :
    ∃ j, 2 ≤ j ∧ j ≤ 5 ∧ j ≤ runLen isUpperAZ s ∧ caps = [String.mk (s.take j)] := by
  simp only [tickerItems, matchSeqL] at h
  split at h
  · obtain ⟨j, hj2, hjm, hcont⟩ := tryReps_some 2 _ _ _ h
    refine ⟨j, hj2, (Nat.le_min.mp hjm).1, (Nat.le_min.mp hjm).2, ?_⟩
    by_cases hb : wordBoundary (if j = 0 then prev else (List.take j s).getLast?)
        (List.drop j s).head? = true
    · rw [if_pos hb] at hcont
      simp at hcont
      exact hcont.1.symm
    · rw [if_neg hb] at hcont
      exact absurd hcont (by simp)
  · exact absurd h (by simp)

theorem searchSeqL_caps (items : List LItem) (prev : Option Char) (s : List Char)
    (st : Nat) (caps : List String) (e : Nat)
    (h : searchSeqL items prev s = some (st, caps, e)) :
    ∃ prev2 s2 rest2, matchSeqL items prev2 s2 = some (caps, rest2) := by
  induction s generalizing prev st e with
  | nil =>
    rw [searchSeqL] at h
    cases hm : matchSeqL items prev [] with
    | none => rw [hm] at h; exact absurd h (by simp)
    | some pr =>
      obtain ⟨caps2, rest2⟩ := pr
      rw [hm] at h
      simp at h
      exact ⟨prev, [], rest2, by rw [hm, h.2.1]⟩
  | cons c cs ih =>
    rw [searchSeqL] at h
    cases hm : matchSeqL items prev (c :: cs) with
    | none =>
      rw [hm] at h
      simp only [Option.map] at h
      cases hr : searchSeqL items (some c) cs with
      | none => rw [hr] at h; exact absurd h (by simp)
      | some r =>
        obtain ⟨st2, caps2, e2⟩ := r
        rw [hr] at h
        simp at h
        obtain ⟨_, hcaps, _⟩ := h
        subst hcaps
        exact ih (some c) st2 e2 hr
    | some pr =>
      obtain ⟨caps2, rest2⟩ := pr
      rw [hm] at h
      simp at h
      exact ⟨prev, c :: cs, rest2, by rw [hm, h.2.1]⟩

theorem findTicker25_spec (s : List Char) (tk : String) (h : findTicker25 s = some tk) :
    tk.toList.all isUpperAZ = true ∧ tk.length ≤ 5 := by
  unfold findTicker25 at h
  split at h
  · rename_i st t e heq
    obtain ⟨prev2, s2, rest2, hm⟩ := searchSeqL_caps _ _ _ _ _ _ heq
    obtain ⟨j, _, hj5, hjr, hcaps⟩ := matchSeqL_ticker prev2 s2 [t] rest2 hm
    have ht : t = String.mk (s2.take j) := by
      simpa using hcaps
    obtain rfl : tk = t := by injection h with h2; exact h2.symm
    subst ht
    constructor
    · exact all_take_of_le_runLen isUpperAZ s2 j hjr
    · show (List.take j s2).length ≤ 5
      calc (List.take j s2).length ≤ j := by simp [List.length_take]
        _ ≤ 5 := hj5
  · exact absurd h (by simp)

theorem fallbackStep_spec (now : String) (line : List Char) (stocks : List StockRecord) :
    ∃ e, fallbackStep now line stocks = stocks ++ e ∧ e.length ≤ 1 ∧
      ∀ r ∈ e, fbShaped now r ∧ ∀ s ∈ stocks, ¬ s.ticker = r.ticker := by
  unfold fallbackStep
  cases ht : findTicker25 line with
  | none => exact ⟨[], by simp, by simp, by simp⟩
  | some tk =>
    cases hc : findCapNum true line with
    | none => exact ⟨[], by simp, by simp, by simp⟩
    | some cap =>
      by_cases hp : parseFloatLe2 cap = true
      · by_cases hfind : (stocks.find? (fun s => s.ticker == tk)).isNone = true
        · refine ⟨[⟨tk, "Company for " ++ tk, "$" ++ cap ++ "B", now⟩],
            by simp [hp, hfind], by simp, ?_⟩
          intro r hr
          simp only [List.mem_singleton] at hr
          subst hr
          obtain ⟨hall, hlen⟩ := findTicker25_spec line tk ht
          refine ⟨⟨tk, cap, rfl, hp, hall, hlen⟩, ?_⟩
          intro s hs heq
          have hnone := List.find?_eq_none.mp (Option.isNone_iff_eq_none.mp hfind) s hs
          simp [heq] at hnone
        · exact ⟨[], by simp [hp, hfind], by simp, by simp⟩
      · exact ⟨[], by simp [hp], by simp, by simp⟩

theorem fallbackLoop_spec (now : String) :
    ∀ (lines : List (List Char)) (stocks : List StockRecord),
    ∃ e, fallbackLoop now lines stocks = stocks ++ e ∧ ∀ r ∈ e, fbShaped now r := by
  intro lines
  induction lines with
  | nil => intro stocks; exact ⟨[], by simp [fallbackLoop]⟩
  | cons line rest ih =>
    intro stocks
    rw [fallbackLoop]
    by_cases h10 : 10 ≤ stocks.length
    · exact ⟨[], by simp [h10]⟩
    · simp only [if_neg h10]
      obtain ⟨e1, he1, _, hs1⟩ := fallbackStep_spec now line stocks
      obtain ⟨e2, he2, hs2⟩ := ih (fallbackStep now line stocks)
      refine ⟨e1 ++ e2, by rw [he2, he1, List.append_assoc], ?_⟩
      intro r hr
      rcases List.mem_append.mp hr with h | h
      · exact (hs1 r h).1
      · exact hs2 r h

theorem pairwise_push (stocks e : List StockRecord)
    (hp : stocks.Pairwise (fun a b => a.ticker ≠ b.ticker)) (hlen : e.length ≤ 1)
    (hnew : ∀ r ∈ e, ∀ s ∈ stocks, ¬ s.ticker = r.ticker) :
    (stocks ++ e).Pairwise (fun a b => a.ticker ≠ b.ticker) := by
  rw [List.pairwise_append]
  refine ⟨hp, ?_, ?_⟩
  · match e with
    | [] => simp
    | [x] => simp
    | x :: y :: e => simp at hlen
  · intro a ha b hb
    exact fun hab => hnew b hb a ha hab

theorem acceptStep_pairwise (now : String) (cand : Option (String × String × String))
    (stocks : List StockRecord)
    (h : stocks.Pairwise (fun a b => a.ticker ≠ b.ticker)) :
    (acceptStep now cand stocks).Pairwise (fun a b => a.ticker ≠ b.ticker) := by
  obtain ⟨e, heq, hlen, hsh⟩ := acceptStep_spec now cand stocks
  rw [heq]
  exact pairwise_push stocks e h hlen (fun r hr => (hsh r hr).2)

theorem fallbackStep_pairwise (now : String) (line : List Char) (stocks : List StockRecord)
    (h : stocks.Pairwise (fun a b => a.ticker ≠ b.ticker)) :
    (fallbackStep now line stocks).Pairwise (fun a b => a.ticker ≠ b.ticker) := by
  obtain ⟨e, heq, hlen, hsh⟩ := fallbackStep_spec now line stocks
  rw [heq]
  exact pairwise_push stocks e h hlen (fun r hr => (hsh r hr).2)

theorem acceptStep_len (now : String) (cand : Option (String × String × String))
    (stocks : List StockRecord) :
    (acceptStep now cand stocks).length ≤ stocks.length + 1 := by
  obtain ⟨e, heq, hlen, _⟩ := acceptStep_spec now cand stocks
  rw [heq]
  simp only [List.length_append]
  omega

theorem fallbackStep_len (now : String) (line : List Char) (stocks : List StockRecord) :
    (fallbackStep now line stocks).length ≤ stocks.length + 1 := by
  obtain ⟨e, heq, hlen, _⟩ := fallbackStep_spec now line stocks
  rw [heq]
  simp only [List.length_append]
  omega

theorem execLoop_pairwise (now : String) (p : StratPattern) (t : List Char) :
    ∀ fuel lastIndex stocks,
    stocks.Pairwise (fun a b => a.ticker ≠ b.ticker) →
    (execLoop now p t fuel lastIndex stocks).Pairwise (fun a b => a.ticker ≠ b.ticker) := by
  intro fuel
  induction fuel with
  | zero => intro li stocks h; simpa [execLoop] using h
  | succ n ih =>
    intro li stocks h
    rw [execLoop]
    cases hs : searchSeq p.items ((t.take li).getLast?) (t.drop li) with
    | none => exact h
    | some res =>
      obtain ⟨st, caps, e'⟩ := res
      by_cases h15 : 15 ≤ stocks.length
      · simpa [h15] using h
      · simp only [if_neg h15]
        exact ih _ _ (acceptStep_pairwise now _ stocks h)

theorem execLoop_len15 (now : String) (p : StratPattern) (t : List Char) :
    ∀ fuel lastIndex stocks, stocks.length ≤ 15 →
    (execLoop now p t fuel lastIndex stocks).length ≤ 15 := by
  intro fuel
  induction fuel with
  | zero => intro li stocks h; simpa [execLoop] using h
  | succ n ih =>
    intro li stocks h
    rw [execLoop]
    cases hs : searchSeq p.items ((t.take li).getLast?) (t.drop li) with
    | none => exact h
    | some res =>
      obtain ⟨st, caps, e'⟩ := res
      by_cases h15 : 15 ≤ stocks.length
      · simpa [h15] using h
      · simp only [if_neg h15]
        apply ih
        have := acceptStep_len now (deriveCandidate p.lineScan caps) stocks
        omega

theorem strategyPass_spec (now : String) (t : List Char) :
    (∀ r ∈ strategyPass now t, stratShaped now r) ∧
    (strategyPass now t).Pairwise (fun a b => a.ticker ≠ b.ticker) ∧
    (strategyPass now t).length ≤ 15 := by
  have main : ∀ (ps : List StratPattern) (stocks : List StockRecord),
      (∀ r ∈ stocks, stratShaped now r) →
      stocks.Pairwise (fun a b => a.ticker ≠ b.ticker) →
      stocks.length ≤ 15 →
      (∀ r ∈ ps.foldl (fun stocks p => execLoop now p t (t.length + 1) 0 stocks) stocks,
          stratShaped now r) ∧
      (ps.foldl (fun stocks p => execLoop now p t (t.length + 1) 0 stocks) stocks).Pairwise
          (fun a b => a.ticker ≠ b.ticker) ∧
      (ps.foldl (fun stocks p => execLoop now p t (t.length + 1) 0 stocks) stocks).length ≤ 15 := by
    intro ps
    induction ps with
    | nil => intro stocks h1 h2 h3; exact ⟨h1, h2, h3⟩
    | cons p ps ih =>
      intro stocks h1 h2 h3
      simp only [List.foldl_cons]
      apply ih
      · intro r hr
        obtain ⟨e, heq, hsh⟩ := execLoop_spec now p t (t.length + 1) 0 stocks
        rw [heq] at hr
        rcases List.mem_append.mp hr with hm | hm
        · exact h1 r hm
        · exact hsh r hm
      · exact execLoop_pairwise now p t (t.length + 1) 0 stocks h2
      · exact execLoop_len15 now p t (t.length + 1) 0 stocks h3
  have := main patterns [] (by simp) (by simp) (by simp)
  simpa [strategyPass] using this

theorem fallbackLoop_pairwise (now : String) :
    ∀ (lines : List (List Char)) (stocks : List StockRecord),
    stocks.Pairwise (fun a b => a.ticker ≠ b.ticker) →
    (fallbackLoop now lines stocks).Pairwise (fun a b => a.ticker ≠ b.ticker) := by
  intro lines
  induction lines with
  | nil => intro stocks h; simpa [fallbackLoop] using h
  | cons line rest ih =>
    intro stocks h
    rw [fallbackLoop]
    by_cases h10 : 10 ≤ stocks.length
    · simpa [h10] using h
    · simp only [if_neg h10]
      exact ih _ (fallbackStep_pairwise now line stocks h)

theorem fallbackLoop_len (now : String) :
    ∀ (lines : List (List Char)) (stocks : List StockRecord),
    (fallbackLoop now lines stocks).length ≤ max stocks.length 10 := by
  intro lines
  induction lines with
  | nil => intro stocks; simp [fallbackLoop]
  | cons line rest ih =>
    intro stocks
    rw [fallbackLoop]
    by_cases h10 : 10 ≤ stocks.length
    · simp [h10]
    · simp only [if_neg h10]
      have h1 := ih (fallbackStep now line stocks)
      have h2 := fallbackStep_len now line stocks
      omega

theorem mk_toList (l : List Char) : (String.mk l).toList = l := rfl

theorem mk_length (l : List Char) : (String.mk l).length = l.length := rfl

theorem parseFloatLe2_true {m : String} (h : parseFloatLe2 m = true) :
    ∃ q, jsParseFloatQ m = some q ∧ q ≤ 2 := by
  unfold parseFloatLe2 at h
  cases hq : jsParseFloatQ m with
  | none => rw [hq] at h; exact absurd h (by simp)
  | some q =>
    rw [hq] at h
    exact ⟨q, rfl, by simpa using h⟩

theorem parseStockData_shapes (now text : String) :
    ∀ r ∈ parseStockData now text, stratShaped now r ∨ fbShaped now r := by
  intro r hr
  simp only [parseStockData] at hr
  split at hr
  · obtain ⟨e, heq, hsh⟩ :=
      fallbackLoop_spec now (splitNl text.toList) (strategyPass now text.toList)
    rw [heq] at hr
    rcases List.mem_append.mp hr with h | h
    · exact Or.inl ((strategyPass_spec now text.toList).1 r h)
    · exact Or.inr (hsh r h)
  · exact Or.inl ((strategyPass_spec now text.toList).1 r hr)

/-! ## Claim theorems -/

/-- C2 (amended): every record's ticker consists only of uppercase ASCII
letters; but it may be empty (a lowercase candidate matched by the
case-insensitive patterns is stripped to the empty string by the
`[^A-Z]`-removal) and may be longer than 5 characters (pattern 2 binds the
ticker to the pre-parenthesis company text). -/
theorem c2_amended_tickers_upper (now text : String) :
    ∀ r ∈ parseStockData now text, r.ticker.toList.all isUpperAZ = true := by
  intro r hr
  rcases parseStockData_shapes now text r hr with h | h
  · obtain ⟨t, c, m, rfl, _⟩ := h
    show ((filterUpper t).toList.all isUpperAZ) = true
    unfold filterUpper
    rw [mk_toList]
    exact List.all_eq_true.mpr (fun x hx => (List.mem_filter.mp hx).2)
  · obtain ⟨tk, m, rfl, _, hall, _⟩ := h
    exact hall

/-- C2 (counterexample): on an input whose only ticker-shaped token is the
lowercase `abc`, parse returns a record whose ticker is the empty string —
refuting both "non-empty string of 1-5 uppercase letters" and "lowercase
ticker-like tokens are never recognized". -/
theorem c2_counterexample :
    ∃ r ∈ parseStockData "2024-01-01T00:00:00.000Z" "abc (Example Corp) xx $1.5 billion",
      r.ticker = "" := by decide

/-- C2 witness: the amended theorem applied to a concrete parse. -/
theorem c2_amended_witness :
    (⟨"XYZ", "Example Corp", "$1.5B", "t0"⟩ : StockRecord) ∈
      parseStockData "t0" "XYZ (Example Corp) ... $1.5 billion" ∧
    (⟨"XYZ", "Example Corp", "$1.5B", "t0"⟩ : StockRecord).ticker.toList.all isUpperAZ = true :=
  ⟨by decide,
   c2_amended_tickers_upper "t0" "XYZ (Example Corp) ... $1.5 billion" _ (by decide)⟩

/-- C3: every record's marketCap is `"$" ++ m ++ "B"` where `m` parses to a
rational at most 2; and the over-threshold example text yields no XYZ
record (it yields no record at all). -/
theorem c3_marketcap_le_two :
    (∀ now text : String, ∀ r ∈ parseStockData now text,
      ∃ m q, r.marketCap = "$" ++ m ++ "B" ∧ jsParseFloatQ m = some q ∧ q ≤ 2) ∧
    (∀ r ∈ parseStockData "t0" "Example Corp (XYZ) ... $2.5 billion", ¬ r.ticker = "XYZ") := by
  constructor
  · intro now text r hr
    rcases parseStockData_shapes now text r hr with h | h
    · obtain ⟨t, c, m, rfl, hp⟩ := h
      obtain ⟨q, hq, hle⟩ := parseFloatLe2_true hp
      exact ⟨m, q, rfl, hq, hle⟩
    · obtain ⟨tk, m, rfl, hp, _, _⟩ := h
      obtain ⟨q, hq, hle⟩ := parseFloatLe2_true hp
      exact ⟨m, q, rfl, hq, hle⟩
  · decide

/-- C3 witness: the theorem applied to a record of a concrete parse. -/
theorem c3_witness :
    (⟨"XYZ", "Example Corp", "$1.5B", "t0"⟩ : StockRecord) ∈
      parseStockData "t0" "XYZ (Example Corp) ... $1.5 billion" ∧
    ∃ m q, (⟨"XYZ", "Example Corp", "$1.5B", "t0"⟩ : StockRecord).marketCap = "$" ++ m ++ "B" ∧
      jsParseFloatQ m = some q ∧ q ≤ 2 :=
  ⟨by decide,
   c3_marketcap_le_two.1 "t0" "XYZ (Example Corp) ... $1.5 billion" _ (by decide)⟩

/-- C4: within one parse, no two returned records share a ticker: both push
sites are guarded by a `find`-by-ticker check, so the first accepted record
for a ticker wins and later candidates are discarded. -/
theorem c4_tickers_unique (now text : String) :
    (parseStockData now text).Pairwise (fun a b => a.ticker ≠ b.ticker) := by
  simp only [parseStockData]
  split
  · exact fallbackLoop_pairwise now _ _ (strategyPass_spec now text.toList).2.1
  · exact (strategyPass_spec now text.toList).2.1

/-- C5: parse returns at most 15 records; when the strategy pass accepted at
least 5 the fallback is skipped and parse returns exactly the strategy-pass
output; when it accepted fewer than 5 the fallback runs and the result is
capped at 10 records. -/
theorem c5_record_caps (now text : String) :
    (parseStockData now text).length ≤ 15 ∧
    ((strategyPass now text.toList).length < 5 ∨
      parseStockData now text = strategyPass now text.toList) ∧
    ((strategyPass now text.toList).length < 5 → (parseStockData now text).length ≤ 10) := by
  have hstrat := (strategyPass_spec now text.toList).2.2
  refine ⟨?_, ?_, ?_⟩
  · simp only [parseStockData]
    split
    · rename_i hlt
      have := fallbackLoop_len now (splitNl text.toList) (strategyPass now text.toList)
      omega
    · exact hstrat
  · by_cases hlt : (strategyPass now text.toList).length < 5
    · exact Or.inl hlt
    · refine Or.inr ?_
      simp only [parseStockData]
      rw [if_neg hlt]
  · intro hlt
    simp only [parseStockData]
    rw [if_pos hlt]
    have := fallbackLoop_len now (splitNl text.toList) (strategyPass now text.toList)
    omega

/-- C5 witness: a concrete input with a single strategy-pass record, so the
fallback runs and the bound 10 applies. -/
theorem c5_witness :
    (strategyPass "t0" ("XYZ (Example Corp) ... $1.5 billion").toList).length < 5 ∧
    (parseStockData "t0" "XYZ (Example Corp) ... $1.5 billion").length ≤ 10 :=
  ⟨by decide, (c5_record_caps "t0" "XYZ (Example Corp) ... $1.5 billion").2.2 (by decide)⟩

/-- C6 (amended): every record's company has at most 50 characters (the
strategy pass truncates with `substring(0, 50)` after stripping one leading
enumeration marker; the fallback synthesizes `Company for <ticker>`); but
parenthetical fragments are removed only by the free-form line strategy, so
companies extracted by the colon-dash pattern can retain `(...)`. -/
theorem c6_amended_company_len (now text : String) :
    ∀ r ∈ parseStockData now text, r.company.length ≤ 50 := by
  intro r hr
  rcases parseStockData_shapes now text r hr with h | h
  · obtain ⟨t, c, m, rfl, _⟩ := h
    show (strTake 50 (jsTrim (stripEnum c))).length ≤ 50
    unfold strTake
    rw [mk_length]
    simp [List.length_take]
  · obtain ⟨tk, m, rfl, _, _, hlen⟩ := h
    show ("Company for " ++ tk).length ≤ 50
    rw [String.length_append]
    have : ("Company for " : String).length = 12 := rfl
    omega

/-- C6 (counterexample): with the colon-dash strategy the company keeps its
parenthetical fragment, refuting "the company string contains no (...)
fragment". -/
theorem c6_counterexample :
    ∃ r ∈ parseStockData "t0" "ABC: Foo (Bar) Baz - $1.5 billion",
      '(' ∈ r.company.toList := by decide

/-- C6 witness: the amended theorem applied to a concrete parse. -/
theorem c6_amended_witness :
    (⟨"XYZ", "Example Corp", "$1.5B", "t0"⟩ : StockRecord) ∈
      parseStockData "t0" "XYZ (Example Corp) ... $1.5 billion" ∧
    (⟨"XYZ", "Example Corp", "$1.5B", "t0"⟩ : StockRecord).company.length ≤ 50 :=
  ⟨by decide,
   c6_amended_company_len "t0" "XYZ (Example Corp) ... $1.5 billion" _ (by decide)⟩

/-- C10: the returned list is the strategy-pass output (a prefix, in
acceptance order) followed by fallback records only; when the strategy pass
produced at least 5 records nothing is appended at all. -/
theorem c10_acceptance_order (now text : String) :
    (∃ extra, parseStockData now text = strategyPass now text.toList ++ extra ∧
      ∀ r ∈ extra, fbShaped now r) ∧
    ((strategyPass now text.toList).length < 5 ∨
      parseStockData now text = strategyPass now text.toList) := by
  constructor
  · simp only [parseStockData]
    split
    · obtain ⟨e, heq, hsh⟩ :=
        fallbackLoop_spec now (splitNl text.toList) (strategyPass now text.toList)
      exact ⟨e, heq, hsh⟩
    · exact ⟨[], by simp, by simp⟩
  · by_cases hlt : (strategyPass now text.toList).length < 5
    · exact Or.inl hlt
    · refine Or.inr ?_
      simp only [parseStockData]
      rw [if_neg hlt]


/-- C1 (counterexample): when the persistence step throws, the catch-all
handler closes the browser and clears the handle — the cached session is NOT
kept alive, refuting the claim. The run does return a failure result. -/
theorem c1_counterexample :
    runQuery c1Env ⟨true, none⟩ = (⟨false, none⟩, RunOutcome.fail "disk full") := by decide

/-- C1 (amended): if the write step throws, `runQuery` returns a failure
result, leaves the store untouched, but tears the session down exactly as it
does for query errors: the single catch block does not distinguish the two. -/
theorem c1_amended_teardown (env : RunEnv) (st : BotState) (msg rt : String)
    (hb : st.browser = true)
    (hq : env.queryResult = Except.ok rt)
    (hlen : ¬(rt = "" ∨ rt.length < 100))
    (hparse : 0 < (parseStockData env.now rt).length)
    (hsave : env.saveResult = Except.error msg) :
    runQuery env st = (⟨false, st.store⟩, RunOutcome.fail msg) := by
  obtain ⟨b, store⟩ := st
  simp only at hb
  subst hb
  simp [runQuery, runQueryTry, hq, hsave, hlen, hparse]

/-- C1 witness: the amended theorem applied to the concrete scenario. -/
theorem c1_amended_witness :
    runQuery c1Env ⟨true, some "prior"⟩ = (⟨false, some "prior"⟩, RunOutcome.fail "disk full") :=
  c1_amended_teardown c1Env ⟨true, some "prior"⟩ "disk full" c1Text rfl rfl
    (by decide) (by decide) rfl

/-- C7 (counterexample): the first write to an absent store produces only
headerless rows — the writer is constructed with `append: true`, so the
header is written zero times, not exactly once. -/
theorem c7_counterexample :
    saveToCSV none [⟨"AAA", "Acme", "$1.0B", "t0"⟩] = some "AAA,Acme,$1.0B,t0\n" ∧
    csvHeaderString.toList.isPrefixOf ("AAA,Acme,$1.0B,t0\n").toList = false := by decide

/-- C7 (amended): appending twice yields exactly the prior content followed
by the first batch's rows then the second batch's rows; no header is ever
inserted by either write. -/
theorem c7_amended_append (store : Option String) (r1 r2 : List StockRecord) :
    saveToCSV (saveToCSV store r1) r2 =
      some (store.getD "" ++ (stringifyRecords r1 ++ stringifyRecords r2)) := by
  simp [saveToCSV]
  rw [String.append_assoc]

/-- C8: the spec's positive example — the ticker-then-parenthetical-company
strategy extracts exactly one record, and the later strategies' and the
fallback's candidates for the same ticker are deduplicated away. -/
theorem c8_example_extraction :
    parseStockData "t0" "XYZ (Example Corp) ... $1.5 billion" =
      [⟨"XYZ", "Example Corp", "$1.5B", "t0"⟩] := by decide

/-- C9: if the query step rejects, or resolves to an empty/short text, the
run fails with that error, the store is untouched (no write happened), the
browser handle is cleared; and a subsequent run attempts a fresh session
(initialization is re-entered, as exhibited by a failing `initBrowser`
surfacing its own error). -/
theorem c9_query_failure_teardown (env : RunEnv) (st : BotState) (m : String)
    (hinit : env.initResult = Except.ok ())
    (hq : env.queryResult = Except.error m ∨
      (∃ rt, env.queryResult = Except.ok rt ∧ (rt = "" ∨ rt.length < 100) ∧
        m = "Response too short or empty")) :
    runQuery env st = (⟨false, st.store⟩, RunOutcome.fail m) ∧
    ∀ (env2 : RunEnv) (e2 : String), env2.initResult = Except.error e2 →
      (runQuery env2 (runQuery env st).1).2 = RunOutcome.fail e2 := by
  have hmain : runQuery env st = (⟨false, st.store⟩, RunOutcome.fail m) := by
    obtain ⟨b, store⟩ := st
    rcases hq with hq | ⟨rt, hq, hshort, rfl⟩
    · cases b <;> simp [runQuery, runQueryTry, hq, hinit]
    · cases b <;> simp [runQuery, runQueryTry, hq, hinit, hshort]
  refine ⟨hmain, ?_⟩
  intro env2 e2 h2
  rw [hmain]
  simp [runQuery, runQueryTry, h2]


/-- C9 witness: the theorem applied to the concrete scenario. -/
theorem c9_witness :
    runQuery c9Env ⟨true, some "data"⟩ = (⟨false, some "data"⟩, RunOutcome.fail "nav timeout") ∧
    (runQuery c9Env2 (runQuery c9Env ⟨true, some "data"⟩).1).2 =
      RunOutcome.fail "fresh init failed" :=
  ⟨(c9_query_failure_teardown c9Env ⟨true, some "data"⟩ "nav timeout" rfl (Or.inl rfl)).1,
   (c9_query_failure_teardown c9Env ⟨true, some "data"⟩ "nav timeout" rfl (Or.inl rfl)).2
     c9Env2 "fresh init failed" rfl⟩

/-- C10 witness: on an input whose strategy pass already yields 5 records,
parse returns exactly the strategy-pass output. -/
theorem c10_witness :
    parseStockData "t0"
        "A (a) $1 billion B (b) $1 billion C (c) $1 billion D (d) $1 billion E (e) $1 billion" =
      strategyPass "t0"
        ("A (a) $1 billion B (b) $1 billion C (c) $1 billion D (d) $1 billion E (e) $1 billion").toList :=
  (c10_acceptance_order "t0"
    "A (a) $1 billion B (b) $1 billion C (c) $1 billion D (d) $1 billion E (e) $1 billion").2.resolve_left
    (by decide)
